import Mathlib

/-!
Verification of the postinstall-execution stage of the update engine
(action pipeline, postinstall orchestrator, progress tracker).

The repository ships only the unit tests of this stage
(`payload_consumer/postinstall_runner_action_unittest.cc`); the
implementation (`postinstall_runner_action.cc`, `action_processor.cc`) is
not part of the sources.  Every definition below whose doc comment starts
with "Modelled from the spec:" is therefore a shallow embedding of the
behaviour described in the specification (sections 3, 4.1-4.3) rather
than a transcription of C++ code, checked against the concrete values the
unit tests pin down.
-/

namespace UpdateEngine

/-- Modelled from the spec: the closed terminal-result taxonomy (spec section 3,
`ErrorKind`).  `Cancelled` carries no code towards the pipeline delegate. -/
inductive ErrorKind where
  | Success
  | ValidationError
  | InstallerFailure
  | InstallerFirmwareSlotB
  | InstallerFirmwareSlotOther
  | Cancelled
deriving DecidableEq, Repr

/-- Modelled from the spec: how the installer process ended — a normal exit with
a code, or a signaled termination that the orchestrator did not request
(a requested termination never reaches the exit-status mapping: the
cancellation path of section 4.2 transitions to `Cancelled` first). -/
inductive ExitStatus where
  | exited (code : Nat)
  | signaled
deriving DecidableEq, Repr

/-- Modelled from the spec: Table 1 of section 4.2, the exit-status to
`ErrorKind` mapping (the implementation is not in the sources). -/
def mapExitStatus (st : ExitStatus) : ErrorKind :=
  match st with
  | .exited c =>
      if c = 0 then .Success
      else if c = 3 then .InstallerFirmwareSlotB
      else if c = 4 then .InstallerFirmwareSlotOther
      else .InstallerFailure
  | .signaled => .InstallerFailure

/-- Modelled from the spec: `ProgressState` (spec section 3), the mutable
progress bookkeeping owned by the orchestrator.  Field names follow the
members `current_partition_`, `partition_weight_`, `accumulated_weight_`
and `total_weight_` that the unit test sets directly. -/
structure ProgressState where
  current_partition_index : Nat
  partition_weight : List ℚ
  accumulated_weight : ℚ
  total_weight : ℚ
deriving DecidableEq, Repr

/-- Modelled from the spec: the parsed per-partition fraction is clamped to
`[0, 1]` (spec section 4.3). -/
def clamp01 (p : ℚ) : ℚ := max 0 (min p 1)

/-- Modelled from the spec: the overall-fraction formula of section 4.3,
`overall = (accumulated_weight + partition_weight[current] * p) / total_weight`
with `p` clamped. -/
def reportedFraction (st : ProgressState) (p : ℚ) : ℚ :=
  (st.accumulated_weight +
      st.partition_weight.getD st.current_partition_index 0 * clamp01 p) /
    st.total_weight

/-- Whitespace separating the keyword from the numeric token. -/
def isWs (c : Char) : Bool := c = ' ' || c = '\t'

/-- Value of a list of decimal digits. -/
def digitsVal (ds : List Char) : Nat :=
  ds.foldl (fun a c => 10 * a + (c.toNat - 48)) 0

/-- Modelled from the spec: a floating-point token — optional sign, decimal
digits with an optional fractional part; the whole token must be consumed
(trailing garbage rejects) and `NaN` or an empty token is rejected.  The
result is returned exactly as a numerator and a count of decimal places. -/
def parseDecimalTok (cs : List Char) : Option (Int × Nat) :=
  let sgnRest : Int × List Char :=
    match cs with
    | '-' :: rest => (-1, rest)
    | '+' :: rest => (1, rest)
    | _ => (1, cs)
  let sgn := sgnRest.1
  let cs1 := sgnRest.2
  let intPart := cs1.takeWhile Char.isDigit
  let cs2 := cs1.dropWhile Char.isDigit
  match cs2 with
  | [] => if intPart.isEmpty then none else some (sgn * digitsVal intPart, 0)
  | '.' :: rest =>
      let fracPart := rest.takeWhile Char.isDigit
      let cs3 := rest.dropWhile Char.isDigit
      if cs3.isEmpty && !(intPart.isEmpty && fracPart.isEmpty) then
        some (sgn * (digitsVal intPart * 10 ^ fracPart.length + digitsVal fracPart),
          fracPart.length)
      else none
  | _ => none

/-- The literal keyword of the progress protocol. -/
def keyword : List Char := "global_progress".toList

/-- Modelled from the spec: the parsing rule of section 4.3 — the line must be
"global_progress" followed by whitespace and a floating-point token; any
other content (missing keyword, missing or non-numeric token, `NaN`,
trailing garbage) yields no update. -/
def parseProgressLine (line : String) : Option (Int × Nat) :=
  let cs := line.toList
  if keyword.isPrefixOf cs then
    match cs.drop keyword.length with
    | [] => none
    | c :: rest =>
        if isWs c then
          let tok := rest.dropWhile isWs
          if tok.isEmpty then none else parseDecimalTok tok
        else none
  else none

/-- Rational value of a parsed token (numerator over a power of ten). -/
def tokenValue (nk : Int × Nat) : ℚ := (nk.1 : ℚ) / (10 : ℚ) ^ nk.2

/-- Modelled from the spec: `processLine(text) -> optional(fraction)`
(spec section 4.3, mirrored by `ProcessProgressLine` in the unit test):
on a successfully parsed line, the recomputed overall fraction is handed
to the delegate; otherwise no update happens. -/
def processLine (st : ProgressState) (line : String) : Option ℚ :=
  (parseProgressLine line).map (fun nk => reportedFraction st (tokenValue nk))

/-- Modelled from the spec: one partition of the `InstallPlan` payload
(spec section 3), with the fields the unit test populates. -/
structure Partition where
  name : String
  target_path : String
  run_postinstall : Bool
  postinstall_path : String
deriving DecidableEq, Repr

/-- Modelled from the spec: the `InstallPlan` payload threaded through the
pipeline (spec section 3). -/
structure InstallPlan where
  partitions : List Partition
  powerwash_required : Bool
deriving DecidableEq, Repr

/-- Split a character list at the directory separator. -/
def splitOnSlash (cs : List Char) : List (List Char) :=
  match cs with
  | [] => [[]]
  | c :: rest =>
      let r := splitOnSlash rest
      if c = '/' then [] :: r
      else
        match r with
        | [] => [[c]]
        | seg :: segs => (c :: seg) :: segs

/-- Path segments of a postinstall path (split at the directory separator). -/
def splitPath (s : String) : List (List Char) :=
  splitOnSlash s.toList

/-- Whether a path is absolute (begins with the directory separator). -/
def isAbsolute (s : String) : Bool :=
  match s.toList with
  | '/' :: _ => true
  | _ => false

/-- Modelled from the spec: whether walking the segments ever traverses above
the mount root — a `..` segment taken at depth 0 escapes; `.` and empty
segments do not change the depth (spec section 4.2, step 1). -/
def pathEscapes (segs : List (List Char)) (depth : Nat) : Bool :=
  match segs with
  | [] => false
  | seg :: rest =>
      if seg = ['.', '.'] then
        match depth with
        | 0 => true
        | d + 1 => pathEscapes rest d
      else if seg = ['.'] || seg = [] then pathEscapes rest depth
      else pathEscapes rest (depth + 1)

/-- Modelled from the spec: a `postinstall_path` is valid when it is not
absolute and resolving it against the partition mount root never escapes
that root (spec section 3 invariant and section 4.2, step 1). -/
def validPostinstallPath (p : String) : Bool :=
  !(isAbsolute p) && !(pathEscapes (splitPath p) 0)

/-- Modelled from the spec: the external collaborators a run depends on
(section 6): whether a device path mounts, whether spawning the installer
at a validated path succeeds, and how the installer for the n-th partition
of the plan eventually terminates. -/
structure Env where
  mountOk : String → Bool
  spawnOk : String → Bool
  exitStatus : Nat → ExitStatus

/-- Observable outcome of one orchestrator run: the terminal kind, how many
installer processes were spawned, and how many powerwash requests were
issued to the hardware collaborator. -/
structure RunOutcome where
  result : ErrorKind
  spawned : Nat
  powerwashes : Nat
deriving DecidableEq, Repr

/-- Modelled from the spec: the per-partition algorithm of section 4.2,
steps 1-5 — skip partitions with `run_postinstall` unset; validate the
path, mount, and spawn (each failure ends the run as `ValidationError`
without spawning further); map the exit status through Table 1; on
`Success` advance to the next partition, otherwise stop with the mapped
kind.  Returns the terminal kind and the number of processes spawned;
`idx` is the position in the plan used to look up the exit status. -/
def runPartitions (env : Env) (parts : List Partition) (idx : Nat) :
    ErrorKind × Nat :=
  match parts with
  | [] => (.Success, 0)
  | part :: rest =>
      if !part.run_postinstall then runPartitions env rest (idx + 1)
      else if !(validPostinstallPath part.postinstall_path) then (.ValidationError, 0)
      else if !(env.mountOk part.target_path) then (.ValidationError, 0)
      else if !(env.spawnOk part.postinstall_path) then (.ValidationError, 0)
      else
        let k := mapExitStatus (env.exitStatus idx)
        if k = .Success then
          let r := runPartitions env rest (idx + 1)
          (r.1, r.2 + 1)
        else (k, 1)

/-- Modelled from the spec: a whole orchestrator run (section 4.2, step 6):
run the partitions in plan order; on overall `Success` with
`powerwash_required` set, request exactly one powerwash; on any
non-`Success` terminal kind no powerwash is requested. -/
def runPlan (env : Env) (plan : InstallPlan) : RunOutcome :=
  let r := runPartitions env plan.partitions 0
  { result := r.1
    spawned := r.2
    powerwashes :=
      if r.1 = .Success && plan.powerwash_required then 1 else 0 }

/-- Modelled from the spec: the inputs the orchestrator reacts to while one
partition's installer runs — the suspend/resume/cancel entry points of
sections 4.1-4.2 and the two asynchronous process notifications
(a progress-channel line became readable; the process exited). -/
inductive OrchEvent where
  | suspendCmd
  | resumeCmd
  | cancelCmd
  | procLine (line : String)
  | procExit (st : ExitStatus)
deriving DecidableEq, Repr

/-- Modelled from the spec: the orchestrator state machine of section 4.2,
`Running ⇄ Suspended → {Completed | Cancelled}`, for the partition whose
installer is currently executing; `running true ps` is the `Suspended`
state.  `Completed` carries an `ErrorKind`; `Cancelled` carries none. -/
inductive OrchState where
  | running (suspended : Bool) (ps : ProgressState)
  | completed (k : ErrorKind)
  | cancelled
deriving DecidableEq, Repr

/-- Modelled from the spec: one transition of the orchestrator state machine,
returning the successor state and the progress fractions emitted to the
delegate.  Suspend and resume only toggle the suspended flag (they are
no-ops when repeated and never mutate `ProgressState`, section 4.2); a
cancel request observed while running transitions to `Cancelled`; a parsed
progress line is forwarded through `processLine`; a process exit completes
the run with the Table 1 mapping.  Terminal states absorb everything. -/
def stepOrch (s : OrchState) (e : OrchEvent) : OrchState × List ℚ :=
  match s, e with
  | .running _ ps, .suspendCmd => (.running true ps, [])
  | .running _ ps, .resumeCmd => (.running false ps, [])
  | .running _ _, .cancelCmd => (.cancelled, [])
  | .running b ps, .procLine l =>
      (.running b ps, (processLine ps l).toList)
  | .running _ _, .procExit st => (.completed (mapExitStatus st), [])
  | .completed k, _ => (.completed k, [])
  | .cancelled, _ => (.cancelled, [])

/-- Run the orchestrator machine over a sequence of events, collecting the
emitted progress fractions. -/
def runEvents (s : OrchState) (es : List OrchEvent) : OrchState × List ℚ :=
  match es with
  | [] => (s, [])
  | e :: rest =>
      let se := stepOrch s e
      let rest' := runEvents se.1 rest
      (rest'.1, se.2 ++ rest'.2)

/-- Whether an event is a process notification (as opposed to an external
suspend/resume/cancel command). -/
def isProcEvent (e : OrchEvent) : Bool :=
  match e with
  | .procLine _ => true
  | .procExit _ => true
  | _ => false

/-- A suspended process makes no further progress (spec section 4.2), so in a
physically realisable trace process notifications are only delivered while
the machine is not suspended; this predicate also rules out cancel
requests.  `b` is the suspended flag at the start of the trace. -/
def noProcWhileSuspended (b : Bool) (es : List OrchEvent) : Bool :=
  match es with
  | [] => true
  | .suspendCmd :: rest => noProcWhileSuspended true rest
  | .resumeCmd :: rest => noProcWhileSuspended false rest
  | .cancelCmd :: _ => false
  | .procLine _ :: rest => !b && noProcWhileSuspended b rest
  | .procExit _ :: rest => !b && noProcWhileSuspended b rest

/-- Modelled from the spec: the delegate-visible events of an Action Pipeline
run (section 4.1): per-action completion codes and exactly one terminal
callback. -/
inductive PipelineEvent where
  | actionCompleted (idx : Nat) (code : ErrorKind)
  | processingDone (code : ErrorKind)
  | processingStopped
deriving DecidableEq, Repr

/-- Whether a pipeline event is one of the two terminal callbacks. -/
def isTerminalEvent (e : PipelineEvent) : Bool :=
  match e with
  | .processingDone _ => true
  | .processingStopped => true
  | _ => false

/-- Modelled from the spec: the delegate trace of an Action Pipeline run
(section 4.1).  `codes` lists, in registration order, the code each
remaining action would complete with; `i` is the index of the next action;
`stopAt = some j` means `stop()` is delivered while action `j` is in
flight, before that action reports its completion.  Every action that
completes fires `onActionCompleted`; a non-`Success` completion stops the
chain with `onProcessingDone` carrying that code; running off the end
fires `onProcessingDone` with the last (successful) code; an observed
termination fires `onProcessingStopped` instead, with no completion code
for the interrupted action. -/
def runPipeline (codes : List ErrorKind) (i : Nat) (stopAt : Option Nat) :
    List PipelineEvent :=
  match codes with
  | [] => [.processingDone .Success]
  | c :: rest =>
      if stopAt = some i then [.processingStopped]
      else
        .actionCompleted i c ::
          (if c = .Success then runPipeline rest (i + 1) stopAt
           else [.processingDone c])

/-- Scans a pipeline trace checking that every `onProcessingDone` is preceded
by a completion code for the postinstall action (the action at index 1 of
the test pipeline feeder-postinstall-collector); `seen` records whether
such a code has been delivered yet. -/
def doneAfterPostinstallCode (seen : Bool) (tr : List PipelineEvent) : Bool :=
  match tr with
  | [] => true
  | .actionCompleted idx _ :: rest =>
      doneAfterPostinstallCode (seen || idx = 1) rest
  | .processingDone _ :: rest => seen && doneAfterPostinstallCode seen rest
  | .processingStopped :: rest => doneAfterPostinstallCode seen rest

/-- Modelled from the spec: the fractions forwarded to the delegate over a
whole run, partition after partition (sections 4.2 step 5 and 4.3).  Each
element of `parts` is one postinstall partition: its weight paired with
the raw per-partition fractions its installer reports in order; `acc` is
the weight accumulated from already-completed partitions, which grows by
the partition's weight at every partition boundary. -/
def runStreamAux (total : ℚ) (parts : List (ℚ × List ℚ)) (acc : ℚ) : List ℚ :=
  match parts with
  | [] => []
  | (w, ps) :: rest =>
      ps.map (fun p => (acc + w * clamp01 p) / total) ++
        runStreamAux total rest (acc + w)

/-- Total weight of a run: the sum of all partition weights (fixed for the
run, spec section 3). -/
def sumWeights (parts : List (ℚ × List ℚ)) : ℚ :=
  (parts.map Prod.fst).sum

/-- Modelled from the spec: the full progress stream of a successful run as
the unit test `RunAsRootProgressUpdatesTest` observes it — the
orchestrator itself reports `0` when the run starts, then the recomputed
overall fraction for every parsed line of every partition, then `1` when
the run completes successfully. -/
def successRunStream (parts : List (ℚ × List ℚ)) : List ℚ :=
  0 :: (runStreamAux (sumWeights parts) parts 0 ++ [1])

/-! ## Theorems -/

/-- C1: with weights `[1, 2, 5]`, total weight `8`, current partition `1` and
accumulated weight `1`, processing "global_progress 0.5" reports the
overall fraction `0.25` and processing "global_progress 1.5" reports
`0.375` (the per-partition fraction is clamped to at most `1` before being
weighted); in general, for a non-negative parsed fraction `p`, the overall
fraction is `(accumulated_weight + partition_weight[current] * min p 1) /
total_weight`. -/
theorem processLine_weighted_clamped (p : ℚ) (hp : 0 ≤ p) :
    processLine ⟨1, [1, 2, 5], 1, 8⟩ "global_progress 0.5" = some (1 / 4) ∧
    processLine ⟨1, [1, 2, 5], 1, 8⟩ "global_progress 1.5" = some (3 / 8) ∧
    ∀ st : ProgressState,
      reportedFraction st p =
        (st.accumulated_weight +
            st.partition_weight.getD st.current_partition_index 0 * min p 1) /
          st.total_weight := by
  have h1 : parseProgressLine "global_progress 0.5" = some (5, 1) := by decide
  have h2 : parseProgressLine "global_progress 1.5" = some (15, 1) := by decide
  refine ⟨?_, ?_, ?_⟩
  · simp only [processLine, h1, Option.map_some, tokenValue, reportedFraction, clamp01]
    norm_num [max_def, min_def]
  · simp only [processLine, h2, Option.map_some, tokenValue, reportedFraction, clamp01]
    norm_num [max_def, min_def]
  · intro st
    have hc : clamp01 p = min p 1 :=
      max_eq_right (le_min hp zero_le_one)
    rw [reportedFraction, hc]

/-- Witness for C1 at `p = 1/2`. -/
theorem processLine_weighted_clamped_witness :
    0 ≤ (1 : ℚ) / 2 ∧
    (processLine ⟨1, [1, 2, 5], 1, 8⟩ "global_progress 0.5" = some (1 / 4) ∧
     processLine ⟨1, [1, 2, 5], 1, 8⟩ "global_progress 1.5" = some (3 / 8) ∧
     ∀ st : ProgressState,
       reportedFraction st ((1 : ℚ) / 2) =
         (st.accumulated_weight +
             st.partition_weight.getD st.current_partition_index 0 *
               min ((1 : ℚ) / 2) 1) /
           st.total_weight) :=
  ⟨by norm_num, processLine_weighted_clamped ((1 : ℚ) / 2) (by norm_num)⟩

/-- C2: the exit-status mapping sends exit 0 to `Success`, exit 3 to
`InstallerFirmwareSlotB`, exit 4 to `InstallerFirmwareSlotOther`, every
other nonzero exit to `InstallerFailure`, and a signaled termination not
requested by the orchestrator to `InstallerFailure`. -/
theorem mapExitStatus_table (c : Nat) (h0 : c ≠ 0) (h3 : c ≠ 3) (h4 : c ≠ 4) :
    mapExitStatus (.exited 0) = .Success ∧
    mapExitStatus (.exited 3) = .InstallerFirmwareSlotB ∧
    mapExitStatus (.exited 4) = .InstallerFirmwareSlotOther ∧
    mapExitStatus (.exited c) = .InstallerFailure ∧
    mapExitStatus .signaled = .InstallerFailure := by
  refine ⟨rfl, rfl, rfl, ?_, rfl⟩
  simp [mapExitStatus, h0, h3, h4]

/-- Witness for C2 at exit code 5. -/
theorem mapExitStatus_table_witness :
    mapExitStatus (.exited 0) = .Success ∧
    mapExitStatus (.exited 3) = .InstallerFirmwareSlotB ∧
    mapExitStatus (.exited 4) = .InstallerFirmwareSlotOther ∧
    mapExitStatus (.exited 5) = .InstallerFailure ∧
    mapExitStatus .signaled = .InstallerFailure :=
  mapExitStatus_table 5 (by decide) (by decide) (by decide)

/-- C3: `processLine` yields no progress update for any line that does not
match the keyword "global_progress" followed by whitespace and a finite
floating-point token — in particular for "foo_bar", "global_progress"
(no token), "global_progress " (empty token), "global_progress NaN" and
"global_progress Exception in ... :)"; and whenever the parser rejects a
line, no delegate callback happens. -/
theorem processLine_no_update_unparsed (st : ProgressState) (line : String)
    (h : parseProgressLine line = none) :
    processLine st "foo_bar" = none ∧
    processLine st "global_progress" = none ∧
    processLine st "global_progress " = none ∧
    processLine st "global_progress NaN" = none ∧
    processLine st "global_progress Exception in ... :)" = none ∧
    processLine st line = none := by
  refine ⟨?_, ?_, ?_, ?_, ?_, ?_⟩
  · simp [processLine, show parseProgressLine "foo_bar" = none from by decide]
  · simp [processLine, show parseProgressLine "global_progress" = none from by decide]
  · simp [processLine, show parseProgressLine "global_progress " = none from by decide]
  · simp [processLine, show parseProgressLine "global_progress NaN" = none from by decide]
  · simp [processLine,
      show parseProgressLine "global_progress Exception in ... :)" = none from by decide]
  · simp [processLine, h]

/-- Witness for C3 at the state of the unit test and the line "foo_bar". -/
theorem processLine_no_update_unparsed_witness :
    parseProgressLine "foo_bar" = none ∧
    (processLine ⟨1, [1, 2, 5], 1, 8⟩ "foo_bar" = none ∧
     processLine ⟨1, [1, 2, 5], 1, 8⟩ "global_progress" = none ∧
     processLine ⟨1, [1, 2, 5], 1, 8⟩ "global_progress " = none ∧
     processLine ⟨1, [1, 2, 5], 1, 8⟩ "global_progress NaN" = none ∧
     processLine ⟨1, [1, 2, 5], 1, 8⟩ "global_progress Exception in ... :)" = none ∧
     processLine ⟨1, [1, 2, 5], 1, 8⟩ "foo_bar" = none) :=
  ⟨by decide, processLine_no_update_unparsed ⟨1, [1, 2, 5], 1, 8⟩ "foo_bar" (by decide)⟩

/-- An environment where every mount and spawn succeeds and every installer
exits 0, as in the happy-path unit tests. -/
def happyEnv : Env :=
  { mountOk := fun _ => true
    spawnOk := fun _ => true
    exitStatus := fun _ => .exited 0 }

/-- The single partition the unit tests build in `RunPosinstallAction`. -/
def testPart : Partition :=
  { name := "part"
    target_path := "/dev/loop0"
    run_postinstall := true
    postinstall_path := "bin/postinst_example" }

/-- C4: a powerwash is requested exactly once per run if and only if the run
ends with overall `Success` and the plan has `powerwash_required` set; in
particular the happy-path single-partition plan (installer exits 0)
requests exactly one powerwash when required and none when not, and a
non-`Success` terminal kind never requests one. -/
theorem powerwash_iff_success_and_required (env : Env) (plan : InstallPlan) :
    ((runPlan env plan).powerwashes = 1 ↔
      (runPlan env plan).result = .Success ∧ plan.powerwash_required = true) ∧
    ((runPlan env plan).powerwashes = 0 ↔
      ¬((runPlan env plan).result = .Success ∧ plan.powerwash_required = true)) ∧
    runPlan happyEnv { partitions := [testPart], powerwash_required := true } =
      { result := .Success, spawned := 1, powerwashes := 1 } ∧
    runPlan happyEnv { partitions := [testPart], powerwash_required := false } =
      { result := .Success, spawned := 1, powerwashes := 0 } := by
  refine ⟨?_, ?_, by decide, by decide⟩ <;>
    · simp only [runPlan]
      cases hk : (runPartitions env plan.partitions 0).1 <;>
        cases hp : plan.powerwash_required <;> simp [hk, hp]

/-- C5: a single-partition plan whose postinstall path is absolute or escapes
the mount root, or whose target path cannot be mounted, ends as
`ValidationError` with no installer process spawned (and no powerwash);
"/etc/../bin/sh" is such an invalid path. -/
theorem invalid_path_or_mount_validation_error (env : Env) (part : Partition)
    (pw : Bool) (hrun : part.run_postinstall = true)
    (hbad : isAbsolute part.postinstall_path = true ∨
      pathEscapes (splitPath part.postinstall_path) 0 = true ∨
      env.mountOk part.target_path = false) :
    (runPlan env { partitions := [part], powerwash_required := pw }).result =
      .ValidationError ∧
    (runPlan env { partitions := [part], powerwash_required := pw }).spawned = 0 ∧
    (runPlan env { partitions := [part], powerwash_required := pw }).powerwashes = 0 ∧
    validPostinstallPath "/etc/../bin/sh" = false := by
  have hmain : runPartitions env [part] 0 = (.ValidationError, 0) := by
    rcases hbad with h | h | h
    · simp [runPartitions, hrun, validPostinstallPath, h]
    · simp [runPartitions, hrun, validPostinstallPath, h]
    · by_cases hv : validPostinstallPath part.postinstall_path
      · simp [runPartitions, hrun, hv, h]
      · simp [runPartitions, hrun, hv]
  refine ⟨?_, ?_, ?_, by decide⟩ <;> simp [runPlan, hmain]

/-- Witness for C5 at the absolute path "/etc/../bin/sh" of the unit test. -/
theorem invalid_path_or_mount_validation_error_witness :
    (Partition.run_postinstall
        { name := "part", target_path := "/dev/loop0", run_postinstall := true,
          postinstall_path := "/etc/../bin/sh" } = true) ∧
    isAbsolute
        (Partition.postinstall_path
          { name := "part", target_path := "/dev/loop0", run_postinstall := true,
            postinstall_path := "/etc/../bin/sh" }) = true ∧
    (runPlan happyEnv
        { partitions :=
            [{ name := "part", target_path := "/dev/loop0",
               run_postinstall := true, postinstall_path := "/etc/../bin/sh" }],
          powerwash_required := true }).result = .ValidationError ∧
    (runPlan happyEnv
        { partitions :=
            [{ name := "part", target_path := "/dev/loop0",
               run_postinstall := true, postinstall_path := "/etc/../bin/sh" }],
          powerwash_required := true }).spawned = 0 := by
  have h := invalid_path_or_mount_validation_error happyEnv
    { name := "part", target_path := "/dev/loop0", run_postinstall := true,
      postinstall_path := "/etc/../bin/sh" } true rfl (Or.inl (by decide))
  exact ⟨rfl, by decide, h.1, h.2.1⟩

/-- Terminal `completed` states absorb every further event and emit nothing. -/
theorem runEvents_completed (k : ErrorKind) (es : List OrchEvent) :
    runEvents (.completed k) es = (.completed k, []) := by
  induction es with
  | nil => rfl
  | cons e rest ih => cases e <;> simp [runEvents, stepOrch, ih]

/-- The terminal `cancelled` state absorbs every further event and emits
nothing. -/
theorem runEvents_cancelled (es : List OrchEvent) :
    runEvents .cancelled es = (.cancelled, []) := by
  induction es with
  | nil => rfl
  | cons e rest ih => cases e <;> simp [runEvents, stepOrch, ih]

/-- Running an event list split in two runs the second half from the state the
first half reached, concatenating the emitted fractions. -/
theorem runEvents_append (s : OrchState) (es fs : List OrchEvent) :
    runEvents s (es ++ fs) =
      ((runEvents (runEvents s es).1 fs).1,
        (runEvents s es).2 ++ (runEvents (runEvents s es).1 fs).2) := by
  induction es generalizing s with
  | nil => simp [runEvents]
  | cons e rest ih => simp [runEvents, ih, List.append_assoc]

/-- Forgets the suspended flag of a running state. -/
def stripSuspend (s : OrchState) : OrchState :=
  match s with
  | .running _ ps => .running false ps
  | s => s

/-- A run whose process notifications are delivered only while not suspended
behaves, up to the suspended flag of a still-running final state, exactly
like the run of its process notifications alone: same emitted fractions,
same terminal state. -/
theorem runEvents_filter_proc (ps : ProgressState) (b : Bool)
    (es : List OrchEvent) (h : noProcWhileSuspended b es = true) :
    stripSuspend (runEvents (.running b ps) es).1 =
      stripSuspend (runEvents (.running false ps) (es.filter isProcEvent)).1 ∧
    (runEvents (.running b ps) es).2 =
      (runEvents (.running false ps) (es.filter isProcEvent)).2 := by
  induction es generalizing b with
  | nil => exact ⟨rfl, rfl⟩
  | cons e rest ih =>
      cases e with
      | suspendCmd =>
          rw [noProcWhileSuspended] at h
          have := ih true h
          simpa [runEvents, stepOrch, isProcEvent, List.filter] using this
      | resumeCmd =>
          rw [noProcWhileSuspended] at h
          have := ih false h
          simpa [runEvents, stepOrch, isProcEvent, List.filter] using this
      | cancelCmd =>
          rw [noProcWhileSuspended] at h
          exact absurd h (by simp)
      | procLine l =>
          rw [noProcWhileSuspended, Bool.and_eq_true, Bool.not_eq_true'] at h
          obtain ⟨hb, hrest⟩ := h
          subst hb
          have := ih false hrest
          simpa [runEvents, stepOrch, isProcEvent, List.filter] using this
      | procExit st =>
          rw [noProcWhileSuspended, Bool.and_eq_true, Bool.not_eq_true'] at h
          obtain ⟨hb, _⟩ := h
          subst hb
          simp [runEvents, stepOrch, isProcEvent, List.filter,
            runEvents_completed]

/-- A suspension-free run that reads some progress lines and then observes the
process exit completes with the Table 1 mapping of that exit status. -/
theorem runEvents_lines_exit (ps : ProgressState) (ls : List String)
    (st : ExitStatus) :
    (runEvents (.running false ps)
        (ls.map OrchEvent.procLine ++ [OrchEvent.procExit st])).1 =
      .completed (mapExitStatus st) := by
  induction ls with
  | nil => simp [runEvents, stepOrch]
  | cons l rest ih => simpa [runEvents, stepOrch] using ih

/-- C6: a termination request delivered while the installer is still running
drives the orchestrator to `Cancelled`, and the pipeline run stopped
during the postinstall action (index 1 of feeder-postinstall-collector)
fires `onProcessingStopped` instead of `onProcessingDone`, with no
completion code ever delivered for the postinstall action (the delegate's
code-set flag stays false). -/
theorem cancel_running_yields_cancelled (ps ps' : ProgressState) (b b' : Bool)
    (es : List OrchEvent) (k : ErrorKind)
    (h : (runEvents (.running b ps) es).1 = .running b' ps') :
    (runEvents (.running b ps) (es ++ [.cancelCmd])).1 = .cancelled ∧
    runPipeline [.Success, k, .Success] 0 (some 1) =
      [.actionCompleted 0 .Success, .processingStopped] ∧
    (∀ c, PipelineEvent.processingDone c ∉
      runPipeline [.Success, k, .Success] 0 (some 1)) ∧
    (∀ c, PipelineEvent.actionCompleted 1 c ∉
      runPipeline [.Success, k, .Success] 0 (some 1)) ∧
    PipelineEvent.processingStopped ∈
      runPipeline [.Success, k, .Success] 0 (some 1) := by
  have htr : runPipeline [ErrorKind.Success, k, ErrorKind.Success] 0 (some 1) =
      [.actionCompleted 0 .Success, .processingStopped] := by
    simp [runPipeline]
  refine ⟨?_, htr, ?_, ?_, ?_⟩
  · rw [runEvents_append, h]
    simp [runEvents, stepOrch, runEvents_cancelled]
  · intro c
    simp [htr]
  · intro c
    simp [htr]
  · simp [htr]

/-- Witness for C6: the empty prefix of events leaves the orchestrator
running, and the sole cancel request then cancels it. -/
theorem cancel_running_yields_cancelled_witness :
    ((runEvents (.running false ⟨0, [1], 0, 1⟩) []).1 =
      OrchState.running false ⟨0, [1], 0, 1⟩) ∧
    ((runEvents (.running false ⟨0, [1], 0, 1⟩) ([] ++ [.cancelCmd])).1 =
        .cancelled ∧
      runPipeline [.Success, .Success, .Success] 0 (some 1) =
        [.actionCompleted 0 .Success, .processingStopped] ∧
      (∀ c, PipelineEvent.processingDone c ∉
        runPipeline [.Success, .Success, .Success] 0 (some 1)) ∧
      (∀ c, PipelineEvent.actionCompleted 1 c ∉
        runPipeline [.Success, .Success, .Success] 0 (some 1)) ∧
      PipelineEvent.processingStopped ∈
        runPipeline [.Success, .Success, .Success] 0 (some 1)) :=
  ⟨rfl, cancel_running_yields_cancelled ⟨0, [1], 0, 1⟩ ⟨0, [1], 0, 1⟩
    false false [] .Success rfl⟩

/-- C7: for an installer that eventually exits 0, a run in which suspend and
resume requests are interleaved (process notifications arriving only while
not suspended, no cancellation) ends `Completed(Success)` and emits
exactly the same progress fractions as the run with no suspension at
all. -/
theorem suspend_resume_same_outcome (ps : ProgressState) (es : List OrchEvent)
    (ls : List String) (h : noProcWhileSuspended false es = true)
    (hp : es.filter isProcEvent =
      ls.map OrchEvent.procLine ++ [OrchEvent.procExit (.exited 0)]) :
    (runEvents (.running false ps) es).1 = .completed .Success ∧
    runEvents (.running false ps) es =
      runEvents (.running false ps) (es.filter isProcEvent) := by
  obtain ⟨hs, ho⟩ := runEvents_filter_proc ps false es h
  have hfin : (runEvents (.running false ps) (es.filter isProcEvent)).1 =
      .completed .Success := by
    rw [hp, runEvents_lines_exit]
    rfl
  rw [hfin] at hs
  have hfin' : (runEvents (.running false ps) es).1 = .completed .Success := by
    rcases hval : (runEvents (.running false ps) es).1 with _ | k | _ <;>
      rw [hval] at hs <;> simp [stripSuspend] at hs
    rw [hs]
  refine ⟨hfin', ?_⟩
  have h1 := hfin'.trans hfin.symm
  exact Prod.ext h1 ho

/-- Witness for C7: one progress line, a suspend and a resume, then exit 0. -/
theorem suspend_resume_same_outcome_witness :
    (noProcWhileSuspended false
        [.procLine "global_progress 0.5", .suspendCmd, .resumeCmd,
          .procExit (.exited 0)] = true) ∧
    ([OrchEvent.procLine "global_progress 0.5", .suspendCmd, .resumeCmd,
        .procExit (.exited 0)].filter isProcEvent =
      ["global_progress 0.5"].map OrchEvent.procLine ++
        [OrchEvent.procExit (.exited 0)]) ∧
    ((runEvents (.running false ⟨0, [2], 0, 2⟩)
        [.procLine "global_progress 0.5", .suspendCmd, .resumeCmd,
          .procExit (.exited 0)]).1 = .completed .Success ∧
      runEvents (.running false ⟨0, [2], 0, 2⟩)
          [.procLine "global_progress 0.5", .suspendCmd, .resumeCmd,
            .procExit (.exited 0)] =
        runEvents (.running false ⟨0, [2], 0, 2⟩)
          ([OrchEvent.procLine "global_progress 0.5", .suspendCmd, .resumeCmd,
            .procExit (.exited 0)].filter isProcEvent)) :=
  ⟨by decide, by decide,
    suspend_resume_same_outcome ⟨0, [2], 0, 2⟩
      [.procLine "global_progress 0.5", .suspendCmd, .resumeCmd,
        .procExit (.exited 0)]
      ["global_progress 0.5"] (by decide) (by decide)⟩

/-- C8: every pipeline run fires exactly one of the two terminal callbacks,
and in the feeder-postinstall-collector pipeline every `onProcessingDone`
is preceded by a delivered completion code for the postinstall action. -/
theorem pipeline_one_terminal_callback (codes : List ErrorKind) (i : Nat)
    (stopAt : Option Nat) (k : ErrorKind) (stopAt' : Option Nat) :
    (runPipeline codes i stopAt).countP (fun e => isTerminalEvent e) = 1 ∧
    doneAfterPostinstallCode false
      (runPipeline [.Success, k, .Success] 0 stopAt') = true := by
  constructor
  · induction codes generalizing i with
    | nil => simp [runPipeline, isTerminalEvent]
    | cons c rest ih =>
        by_cases hs : stopAt = some i
        · simp [runPipeline, hs, isTerminalEvent]
        · by_cases hc : c = ErrorKind.Success
          · have hr := ih (i + 1)
            simp [runPipeline, hs, hc, isTerminalEvent] at hr ⊢
            exact hr
          · simp [runPipeline, hs, hc, isTerminalEvent]
  · by_cases h0 : stopAt' = some 0
    · simp [runPipeline, h0, doneAfterPostinstallCode]
    · by_cases h1 : stopAt' = some 1
      · simp [runPipeline, h0, h1, doneAfterPostinstallCode]
      · by_cases hk : k = ErrorKind.Success
        · by_cases h2 : stopAt' = some 2
          · simp [runPipeline, h0, h1, h2, hk, doneAfterPostinstallCode]
          · simp [runPipeline, h0, h1, h2, hk, doneAfterPostinstallCode]
        · simp [runPipeline, h0, h1, hk, doneAfterPostinstallCode]

/-- The clamped fraction is non-negative. -/
theorem clamp01_nonneg (p : ℚ) : 0 ≤ clamp01 p := le_max_left 0 (min p 1)

/-- The clamped fraction is at most one. -/
theorem clamp01_le_one (p : ℚ) : clamp01 p ≤ 1 :=
  max_le (by norm_num) (min_le_right p 1)

/-- Clamping preserves order. -/
theorem clamp01_mono {p q : ℚ} (h : p ≤ q) : clamp01 p ≤ clamp01 q :=
  max_le_max le_rfl (min_le_min h le_rfl)

/-- Unfolding the total weight at a cons. -/
theorem sumWeights_cons (w : ℚ) (ps : List ℚ) (rest : List (ℚ × List ℚ)) :
    sumWeights ((w, ps) :: rest) = w + sumWeights rest := by
  simp [sumWeights]

/-- A run over non-negative partition weights has non-negative total
weight. -/
theorem sumWeights_nonneg (parts : List (ℚ × List ℚ))
    (hw : ∀ pr ∈ parts, 0 ≤ pr.1) : 0 ≤ sumWeights parts := by
  induction parts with
  | nil => simp [sumWeights]
  | cons pr rest ih =>
      obtain ⟨w, ps⟩ := pr
      rw [sumWeights_cons]
      exact add_nonneg (hw (w, ps) (by simp))
        (ih fun q hq => hw q (List.mem_cons_of_mem _ hq))

/-- Every member of the getLast? of a list is a member of the list. -/
theorem mem_of_mem_getLast_opt {α : Type} {l : List α} {a : α}
    (h : a ∈ l.getLast?) : a ∈ l := by
  obtain ⟨hne, rfl⟩ := List.mem_getLast?_eq_getLast h
  exact List.getLast_mem hne

/-- Every fraction the tracker emits for the remaining partitions lies between
the fraction already accumulated and the fraction after all remaining
weight is consumed. -/
theorem runStreamAux_mem_bounds (total : ℚ) (htot : 0 < total)
    (parts : List (ℚ × List ℚ)) :
    ∀ acc : ℚ, (∀ pr ∈ parts, 0 ≤ pr.1) →
      ∀ x ∈ runStreamAux total parts acc,
        acc / total ≤ x ∧ x ≤ (acc + sumWeights parts) / total := by
  induction parts with
  | nil => intro acc _ x hx; simp [runStreamAux] at hx
  | cons pr rest ih =>
      obtain ⟨w, ps⟩ := pr
      intro acc hw x hx
      rw [runStreamAux] at hx
      have hw0 : 0 ≤ w := hw (w, ps) (by simp)
      have hwr : ∀ q ∈ rest, 0 ≤ q.1 :=
        fun q hq => hw q (List.mem_cons_of_mem _ hq)
      have hsum : 0 ≤ sumWeights rest := sumWeights_nonneg rest hwr
      rw [sumWeights_cons]
      rcases List.mem_append.mp hx with hmem | hmem
      · obtain ⟨p, _, rfl⟩ := List.mem_map.mp hmem
        have hcp : 0 ≤ clamp01 p := clamp01_nonneg p
        have hcp1 : clamp01 p ≤ 1 := clamp01_le_one p
        constructor
        · gcongr
          exact le_add_of_nonneg_right (mul_nonneg hw0 hcp)
        · gcongr
          calc w * clamp01 p ≤ w := mul_le_of_le_one_right hw0 hcp1
            _ ≤ w + sumWeights rest := le_add_of_nonneg_right hsum
      · have hb := ih (acc + w) hwr x hmem
        constructor
        · refine le_trans ?_ hb.1
          gcongr
          exact le_add_of_nonneg_right hw0
        · rw [← add_assoc]
          exact hb.2

/-- With non-negative weights and a well-behaved (non-decreasing) report
sequence for every partition, the fractions of the whole run form a
non-decreasing sequence. -/
theorem runStreamAux_chain (total : ℚ) (htot : 0 < total)
    (parts : List (ℚ × List ℚ)) :
    ∀ acc : ℚ, (∀ pr ∈ parts, 0 ≤ pr.1) →
      (∀ pr ∈ parts, List.Chain' (· ≤ ·) pr.2) →
      List.Chain' (· ≤ ·) (runStreamAux total parts acc) := by
  induction parts with
  | nil => intro acc _ _; simp [runStreamAux]
  | cons pr rest ih =>
      obtain ⟨w, ps⟩ := pr
      intro acc hw hch
      have hw0 : 0 ≤ w := hw (w, ps) (by simp)
      have hwr : ∀ q ∈ rest, 0 ≤ q.1 :=
        fun q hq => hw q (List.mem_cons_of_mem _ hq)
      rw [runStreamAux, List.chain'_append]
      refine ⟨?_, ?_, ?_⟩
      · rw [List.chain'_map]
        refine (hch (w, ps) (by simp)).imp fun a b hab => ?_
        gcongr
        exact clamp01_mono hab
      · exact ih (acc + w) hwr fun q hq => hch q (List.mem_cons_of_mem _ hq)
      · intro x hx y hy
        obtain ⟨p, _, rfl⟩ := List.mem_map.mp (mem_of_mem_getLast_opt hx)
        have hy' : y ∈ runStreamAux total rest (acc + w) :=
          List.mem_of_mem_head? hy
        have hb := runStreamAux_mem_bounds total htot rest (acc + w) hwr y hy'
        refine le_trans ?_ hb.1
        gcongr
        exact mul_le_of_le_one_right hw0 (clamp01_le_one p)

/-- C9 (amended): for a run whose partitions all have non-negative weight and
positive total weight, and whose installers are well-behaved (each
partition's reported fraction sequence is non-decreasing, as the spec
assumes), the fractions delivered over the whole run are monotonically
non-decreasing, and every delivered fraction lies in `[0, 1]`. -/
theorem progress_stream_monotone_wellbehaved (parts : List (ℚ × List ℚ))
    (hw : ∀ pr ∈ parts, 0 ≤ pr.1)
    (hch : ∀ pr ∈ parts, List.Chain' (· ≤ ·) pr.2)
    (htot : 0 < sumWeights parts) :
    List.Chain' (· ≤ ·) (successRunStream parts) ∧
    ∀ x ∈ successRunStream parts, 0 ≤ x ∧ x ≤ 1 := by
  have hbounds : ∀ x ∈ runStreamAux (sumWeights parts) parts 0,
      0 ≤ x ∧ x ≤ 1 := by
    intro x hx
    have hb := runStreamAux_mem_bounds (sumWeights parts) htot parts 0 hw x hx
    rw [zero_div] at hb
    refine ⟨hb.1, ?_⟩
    have h2 := hb.2
    rw [zero_add, div_self htot.ne'] at h2
    exact h2
  have hchain : List.Chain' (· ≤ ·) (runStreamAux (sumWeights parts) parts 0) :=
    runStreamAux_chain (sumWeights parts) htot parts 0 hw hch
  constructor
  · rw [successRunStream, List.chain'_cons']
    constructor
    · intro y hy
      rcases List.mem_append.mp (List.mem_of_mem_head? hy) with h | h
      · exact (hbounds y h).1
      · simp only [List.mem_singleton] at h
        rw [h]
        norm_num
    · rw [List.chain'_append]
      refine ⟨hchain, by simp, ?_⟩
      intro x hx y hy
      simp only [List.head?_cons, Option.mem_def, Option.some.injEq] at hy
      rw [← hy]
      exact (hbounds x (mem_of_mem_getLast_opt hx)).2
  · intro x hx
    rw [successRunStream] at hx
    rcases List.mem_cons.mp hx with h | h
    · rw [h]
      norm_num
    · rcases List.mem_append.mp h with h2 | h2
      · exact hbounds x h2
      · simp only [List.mem_singleton] at h2
        rw [h2]
        norm_num

/-- Witness for C9 (amended) on a two-partition run with weights 1 and 2. -/
theorem progress_stream_monotone_wellbehaved_witness :
    ((0 : ℚ) < sumWeights [(1, [1 / 4, 1 / 2]), (2, [3 / 4])]) ∧
    (List.Chain' (· ≤ ·)
        (successRunStream [(1, [1 / 4, 1 / 2]), (2, [3 / 4])]) ∧
      ∀ x ∈ successRunStream [(1, [1 / 4, 1 / 2]), (2, [3 / 4])],
        0 ≤ x ∧ x ≤ 1) :=
  ⟨by norm_num [sumWeights],
    progress_stream_monotone_wellbehaved [(1, [1 / 4, 1 / 2]), (2, [3 / 4])]
      (by norm_num) (by norm_num [List.chain'_cons]) (by norm_num [sumWeights])⟩

/-- Counterexample to C9 as stated: with a single partition of weight 1 whose
installer reports 0.5 and then 0.25, the delivered progress stream
decreases, so the whole-run fraction sequence is not monotonically
non-decreasing for every run. -/
theorem progress_stream_not_monotone_counterexample :
    ¬ List.Chain' (· ≤ ·) (successRunStream [(1, [1 / 2, 1 / 4])]) := by
  intro h
  have hsum : sumWeights [((1 : ℚ), [1 / 2, 1 / 4])] = 1 := by
    simp [sumWeights]
  rw [successRunStream, hsum] at h
  simp only [runStreamAux, List.map_cons, List.map_nil, List.append_nil,
    List.cons_append, List.nil_append] at h
  have h2 := (List.chain'_cons.mp (List.chain'_cons.mp h).2).1
  rw [clamp01, clamp01] at h2
  norm_num [max_def, min_def] at h2

/-- C10: the orchestrator itself reports a boundary fraction of exactly 0 when
the run starts and exactly 1 when the run completes successfully, so every
successful run's progress stream begins at 0 and ends at 1; on the
single-partition run of the unit test (installer reporting 0.25, 0.5, 1)
the full delivered stream is `[0, 0.25, 0.5, 1, 1]`. -/
theorem run_stream_boundaries (parts : List (ℚ × List ℚ)) :
    (successRunStream parts).head? = some 0 ∧
    (successRunStream parts).getLast? = some 1 ∧
    successRunStream [(1, [1 / 4, 1 / 2, 1])] = [0, 1 / 4, 1 / 2, 1, 1] := by
  refine ⟨rfl, ?_, ?_⟩
  · rw [successRunStream,
      show (0 : ℚ) :: (runStreamAux (sumWeights parts) parts 0 ++ [1]) =
        ((0 : ℚ) :: runStreamAux (sumWeights parts) parts 0) ++ [1] from rfl]
    exact List.getLast?_concat _
  · have hsum : sumWeights [((1 : ℚ), [1 / 4, 1 / 2, 1])] = 1 := by
      simp [sumWeights]
    rw [successRunStream, hsum]
    simp only [runStreamAux, List.map_cons, List.map_nil, List.append_nil,
      List.cons_append, List.nil_append, List.cons.injEq]
    norm_num [clamp01, max_def, min_def]

end UpdateEngine
